import Mathlib

/-!
Shallow embedding of the Whisper transcription server
(`whisper_flask_server3.py`, with `create_srt_content`/`format_timestamp`
identical in `whisper_flask_server.py`).

Conventions of the embedding:
* Python floats carrying seconds are modelled as exact rationals (`ℚ`).
  On every concrete value appearing in the claims (0, 59.999, 3600,
  3725.125) IEEE-754 double rounding of the literal agrees with the exact
  rational result (e.g. the double nearest 59.999 lies slightly above
  59.999, so the millisecond component truncates to 999 in both models).
* Python `int(x)` truncates toward zero: `pyInt`.  Python `//` on floats
  is floor division: `pyFloorDiv`.  Python `%` is `a - b * (a // b)`.
* The unbounded `while` loop of `create_srt_content` is given explicit
  fuel; a result of `none` models non-termination of the Python loop.
* The global `progress_queue` dict is modelled as an insertion-ordered
  association list with Python-dict assignment/get/del semantics.
-/

/-- One word-level timestamp entry of a transcription segment:
the dict `{'word': ..., 'start': ..., 'end': ...}`. -/
structure TimedWord where
  word : String
  start : ℚ
  stop : ℚ
deriving DecidableEq, Inhabited

/-- A transcription segment. Only the optional `'words'` key is read by
`create_srt_content`; `words = none` models a segment dict without that key. -/
structure Segment where
  words : Option (List TimedWord)
deriving DecidableEq, Inhabited

/-- One SRT cue as assembled by the body of the outer loop of
`create_srt_content`: index, start/end seconds and the joined text. -/
structure Cue where
  index : Nat
  start : ℚ
  stop : ℚ
  text : String
deriving DecidableEq, Inhabited

/-- Python `int(q)`: truncation toward zero. -/
def pyInt (q : ℚ) : ℤ := q.num.tdiv q.den

/-- Python float floor division `a // b`. -/
def pyFloorDiv (a b : ℚ) : ℚ := ((a / b).num.fdiv (a / b).den : ℤ)

/-- Python float modulo `a % b = a - b * (a // b)`. -/
def pyMod (a b : ℚ) : ℚ := a - b * pyFloorDiv a b

/-- Zero padding of Python's format specs `{n:02d}` / `{n:03d}`
(agrees with Python for the nonnegative values produced here). -/
def padZeros (w : Nat) (n : ℤ) : String :=
  let s := toString n
  if s.length < w then String.mk (List.replicate (w - s.length) '0') ++ s else s

/-- `format_timestamp(seconds)` from the source:
hours = `int(seconds // 3600)`, minutes = `int((seconds % 3600) // 60)`,
secs = `int(seconds % 60)`, milliseconds = `int((seconds % 1) * 1000)`,
rendered as `HH:MM:SS,mmm`. -/
def format_timestamp (seconds : ℚ) : String :=
  let hours := pyInt (pyFloorDiv seconds 3600)
  let minutes := pyInt (pyFloorDiv (pyMod seconds 3600) 60)
  let secs := pyInt (pyMod seconds 60)
  let milliseconds := pyInt (pyMod seconds 1 * 1000)
  padZeros 2 hours ++ ":" ++ padZeros 2 minutes ++ ":" ++ padZeros 2 secs
    ++ "," ++ padZeros 3 milliseconds

/-- Python `str.strip()`: remove leading and trailing whitespace.  Modelled
structurally on the character list (drop leading whitespace, then trailing
via reverse) so that it evaluates by kernel reduction. -/
def pyStrip (s : String) : String :=
  String.mk (((s.data.dropWhile Char.isWhitespace).reverse.dropWhile
    Char.isWhitespace).reverse)

/-- The inner `while i < len(words) and word_count < words_per_line` loop of
`create_srt_content`, with `budget = words_per_line - word_count`.
It appends `words[i]['word'].strip()` to the accumulated line words and
advances `i`; it always terminates because `word_count` grows each step. -/
def innerLoop (ws : List TimedWord) : Nat → Nat → List String → List String × Nat
  | 0, i, acc => (acc, i)
  | b + 1, i, acc =>
    if h : i < ws.length then
      innerLoop ws b (i + 1) (acc ++ [pyStrip (ws.get ⟨i, h⟩).word])
    else (acc, i)

/-- The outer `while i < len(words)` loop of `create_srt_content`, made total
with explicit fuel; `none` models non-termination of the Python loop.
Each iteration reads `start_time = words[i]['start']`, runs the inner loop,
computes `end_time = words[i]['end'] if i > 0 else start_time + 0.5` with the
post-inner-loop `i`, joins the line words with single spaces and emits one cue
numbered `idx`. -/
def outerLoop (wpl : Nat) (ws : List TimedWord) : Nat → Nat → Nat → Option (List Cue)
  | 0, i, _ => if i < ws.length then none else some []
  | fuel + 1, i, idx =>
    if h : i < ws.length then
      let startTime := (ws.get ⟨i, h⟩).start
      let p := innerLoop ws wpl i []
      let endTime := if 0 < p.2 then (ws.getD (p.2 - 1) default).stop
                     else startTime + 1 / 2
      let text := String.intercalate " " p.1
      match outerLoop wpl ws fuel p.2 (idx + 1) with
      | none => none
      | some rest =>
        some ({ index := idx, start := startTime, stop := endTime, text := text } :: rest)
    else some []

/-- The cues produced for one segment's word list, starting at subtitle
index `idx`.  Fuel `ws.length` suffices exactly when the Python loop
terminates (one word is consumed per iteration once `wpl ≥ 1`). -/
def segmentCues (wpl : Nat) (ws : List TimedWord) (idx : Nat) : Option (List Cue) :=
  outerLoop wpl ws ws.length 0 idx

/-- The `for segment in segments` loop of `create_srt_content`: segments
without a `'words'` key are skipped (`continue`); the subtitle index is
threaded across segments (each emitted cue increments it by one, so after a
segment it has advanced by the number of cues emitted). -/
def srtCues (wpl : Nat) : List Segment → Nat → Option (List Cue)
  | [], _ => some []
  | seg :: rest, idx =>
    match seg.words with
    | none => srtCues wpl rest idx
    | some ws =>
      match segmentCues wpl ws idx with
      | none => none
      | some cues =>
        match srtCues wpl rest (idx + cues.length) with
        | none => none
        | some more => some (cues ++ more)

/-- The four lines appended to `srt_content` for one cue. -/
def cueLines (c : Cue) : List String :=
  [toString c.index,
   format_timestamp c.start ++ " --> " ++ format_timestamp c.stop,
   c.text, ""]

/-- `create_srt_content(segments, words_per_line)`: the final
`'\n'.join(srt_content)`.  `none` models non-termination. -/
def create_srt_content (segments : List Segment) (words_per_line : Nat) : Option String :=
  (srtCues words_per_line segments 1).map
    (fun cs => String.intercalate "\n" (cs.flatMap cueLines))

/-- The spec's description of the grouping (for comparison with the source
algorithm): consecutive runs of exactly `wpl` words, the final run possibly
shorter.  Only meaningful for `wpl ≥ 1`. -/
def groupsOf (wpl : Nat) : List α → List (List α)
  | [] => []
  | x :: xs => (x :: xs.take (wpl - 1)) :: groupsOf wpl (xs.drop (wpl - 1))
termination_by l => l.length
decreasing_by simp [List.length_drop]; omega

/-- One value of the global `progress_queue` dict: the job record served to
pollers.  `result`, `segments_count` and `detected_language` model keys that
are present only in the completion record. -/
structure JobRecord where
  status : String
  progress : Nat
  message : String
  result : Option String := none
  segments_count : Option Nat := none
  detected_language : Option String := none
deriving DecidableEq, Inhabited

/-- The global `progress_queue` dict, as an insertion-ordered association
list (Python dicts preserve insertion order and have unique keys). -/
abbrev JobStore := List (String × JobRecord)

/-- Python dict assignment `progress_queue[id] = r`: replaces the value in
place if the key exists, otherwise appends a new entry.  This is the job
store's only update operation. -/
def storeSet : JobStore → String → JobRecord → JobStore
  | [], id, r => [(id, r)]
  | e :: rest, id, r =>
    if e.1 = id then (id, r) :: rest else e :: storeSet rest id r

/-- Python dict lookup `progress_queue[id]` guarded by `id in progress_queue`. -/
def storeGet : JobStore → String → Option JobRecord
  | [], _ => none
  | e :: rest, id => if e.1 = id then some e.2 else storeGet rest id

/-- Python `del progress_queue[id]` (keys are unique in a dict, so removing
the first occurrence is exact). -/
def storeDel : JobStore → String → JobStore
  | [], _ => []
  | e :: rest, id => if e.1 = id then rest else e :: storeDel rest id

/-- The record written by `handle_transcribe` right after accepting a
request: `{'status': 'uploading', 'progress': 10, ...}`. -/
def uploadingRec : JobRecord :=
  { status := "uploading", progress := 10, message := "Archivo recibido, preparando..." }

/-- First runner write: `{'status': 'loading_model', 'progress': 20, ...}`. -/
def loadingRec (model_size : String) : JobRecord :=
  { status := "loading_model", progress := 20,
    message := "Cargando modelo " ++ model_size ++ "..." }

/-- Second runner write: `{'status': 'transcribing', 'progress': 40, ...}`. -/
def transcribingRec : JobRecord :=
  { status := "transcribing", progress := 40, message := "Iniciando transcripción..." }

/-- Third runner write: `{'status': 'generating_srt', 'progress': 80, ...}`. -/
def generatingRec : JobRecord :=
  { status := "generating_srt", progress := 80, message := "Generando archivo SRT..." }

/-- Terminal success write, carrying the rendered SRT text, segment count and
`result.get('language', 'unknown')`. -/
def completedRec (srt : String) (nsegs : Nat) (lang : String) : JobRecord :=
  { status := "completed", progress := 100, message := "Transcripción completada",
    result := some srt, segments_count := some nsegs, detected_language := some lang }

/-- The `except` branch of `transcribe_audio_with_progress`:
`{'status': 'error', 'progress': 0, 'message': f'Error: {e}'}`. -/
def errorRec (msg : String) : JobRecord :=
  { status := "error", progress := 0, message := "Error: " ++ msg }

/-- Synthetic record returned by `serve_progress` for unknown ids. -/
def notFoundRec : JobRecord :=
  { status := "not_found", progress := 0, message := "Tarea no encontrada" }

/-- `serve_progress`: serve the stored record, or the `not_found` record
when the id is absent; always an HTTP 200 response. -/
def serve_progress (st : JobStore) (task_id : String) : JobRecord :=
  (storeGet st task_id).getD notFoundRec

/-- `words_per_line = int(value) if value.isdigit() else 6` from
`handle_transcribe`.  `String.toNat?` succeeds exactly on nonempty
all-ASCII-digit strings, matching `str.isdigit` on ASCII input; note that
`"0".isdigit()` is true, so the value 0 is accepted. -/
def parse_words_per_line (value : String) : Nat :=
  if value.data ≠ [] ∧ value.data.all Char.isDigit then
    value.data.foldl (fun n c => n * 10 + (c.toNat - 48)) 0
  else 6

/-- The form fields of a `POST /transcribe` request, after multipart
decoding (the byte-level boundary scanning is transport glue; a field is
`none` when the corresponding part is absent). -/
structure TranscribeRequest where
  audio : Option (List Nat)
  words_per_line_field : Option String
  model_size_field : Option String
  language_field : Option String
  task_id_field : Option String
deriving DecidableEq, Inhabited

/-- Outcome of the synchronous part of `handle_transcribe`. -/
inductive HttpResponse where
  | ok (task_id : String)
  | err (code : Nat) (msg : String)
deriving DecidableEq

/-- Result of `handle_transcribe`: the HTTP response, the job store after
the handler ran, and the arguments handed to the spawned runner thread
(model size, words per line, language, task id), if one was spawned. -/
structure TranscribeResult where
  response : HttpResponse
  store : JobStore
  runnerArgs : Option (String × Nat × Option String × String)
deriving DecidableEq

/-- `handle_transcribe` (the synchronous part, lines 756-874): defaults
`words_per_line = 6`, `model_size = 'medium'`, `language = None` unless a
non-`'auto'` language part is present, `task_id` = a fresh uuid unless a
`task_id` part is present.  Rejects with 400 only when the audio part is
missing or empty (`if not audio_data`); `words_per_line` is never
range-checked.  On acceptance it writes the `uploading` record into the
store and spawns the runner.  (The earlier 400 paths for an empty body or a
missing multipart boundary are transport glue and also never inspect
`words_per_line`.) -/
def handle_transcribe (st : JobStore) (freshId : String) (req : TranscribeRequest) :
    TranscribeResult :=
  let wpl := match req.words_per_line_field with
    | none => 6
    | some v => parse_words_per_line v
  let modelSize := (req.model_size_field).getD "medium"
  let language := match req.language_field with
    | none => none
    | some l => if l = "auto" then none else some l
  let tid := (req.task_id_field).getD freshId
  match req.audio with
  | none => ⟨.err 400 "Archivo de audio no encontrado", st, none⟩
  | some bs =>
    if bs.isEmpty then ⟨.err 400 "Archivo de audio no encontrado", st, none⟩
    else ⟨.ok tid, storeSet st tid uploadingRec, some (modelSize, wpl, language, tid)⟩

/-- Abstract outcome of the engine calls made by
`transcribe_audio_with_progress`: the model load may raise, the transcribe
call may raise, or transcription succeeds with segments and an optional
detected language. -/
inductive RunOutcome where
  | loadFail (msg : String)
  | transcribeFail (msg : String)
  | success (segments : List Segment) (language : Option String)

/-- The sequence of job-store writes performed by
`transcribe_audio_with_progress` for one job, in order.  On an exception the
final write is the `error` record and nothing follows (no retry).  When
`create_srt_content` does not terminate (words_per_line 0 with words
present) the runner hangs after the `generating_srt` write. -/
def runnerWrites (model_size : String) (wpl : Nat) : RunOutcome → List JobRecord
  | .loadFail msg => [loadingRec model_size, errorRec msg]
  | .transcribeFail msg => [loadingRec model_size, transcribingRec, errorRec msg]
  | .success segs lang =>
    match create_srt_content segs wpl with
    | none => [loadingRec model_size, transcribingRec, generatingRec]
    | some srt =>
      [loadingRec model_size, transcribingRec, generatingRec,
       completedRec srt segs.length (lang.getD "unknown")]

/-- All writes a single job's record receives, from the `uploading` write of
`handle_transcribe` through the runner's writes. -/
def jobWrites (model_size : String) (wpl : Nat) (o : RunOutcome) : List JobRecord :=
  uploadingRec :: runnerWrites model_size wpl o

/-- Python `int(...)` on a nonempty all-digit character list (the digits of a
decimal literal); `none` models the `ValueError` raised otherwise. -/
def parseDigits (cs : List Char) : Option Nat :=
  if cs ≠ [] ∧ cs.all Char.isDigit then
    some (cs.foldl (fun n c => n * 10 + (c.toNat - 48)) 0)
  else none

/-- Python `int(str)` on an optionally signed decimal literal (ids produced
by the UI are `Date.now().toString()`, plain digit strings). -/
def parseIntLit : List Char → Option ℤ
  | '-' :: rest => (parseDigits rest).map (fun n => -(n : ℤ))
  | '+' :: rest => (parseDigits rest).map (fun n => (n : ℤ))
  | cs => (parseDigits cs).map (fun n => (n : ℤ))

/-- The `try` block of `cleanup_old_tasks`: derive an epoch-seconds
creation time from the task id itself
(`int(task_id.split('_')[0]) / 1000 if '_' in task_id else int(task_id) / 1000`);
`none` models the `except: continue` on ids whose prefix is not an integer
literal. -/
def parseTaskTime (task_id : String) : Option ℚ :=
  let firstPart := if task_id.data.contains '_'
    then task_id.data.takeWhile (fun c => c ≠ '_') else task_id.data
  (parseIntLit firstPart).map (fun n => (n : ℚ) / 1000)

/-- Whether one sweep of `cleanup_old_tasks` removes the given id at the
given current time: the id parses to a time older than 1800 seconds. -/
def evictable (current_time : ℚ) (task_id : String) : Bool :=
  match parseTaskTime task_id with
  | none => false
  | some t => decide (current_time - t > 1800)

/-- One sweep of the `cleanup_old_tasks` loop body: collect the ids to
remove, then `del` each of them. -/
def cleanup_pass (current_time : ℚ) (st : JobStore) : JobStore :=
  let tasksToRemove := st.filterMap (fun e =>
    match parseTaskTime e.1 with
    | none => none
    | some t => if current_time - t > 1800 then some e.1 else none)
  tasksToRemove.foldl storeDel st

/-- The claim's description of eviction (for comparison with the source):
remove exactly the jobs whose creation time `createdAt` is more than 1800
seconds in the past, keep all others. -/
def evictSpec (createdAt : String → ℚ) (now : ℚ) (st : JobStore) : JobStore :=
  st.filter (fun e => decide (now - createdAt e.1 ≤ 1800))

/-- The claim's description of timestamp rendering (for comparison with the
source): hours `⌊s/3600⌋` unbounded (no wrap at 24), minutes `⌊s/60⌋ mod 60`,
seconds `⌊s⌋ mod 60`, milliseconds `⌊1000·s⌋ mod 1000`, each truncated (floor
coincides with truncation on the claim's nonnegative inputs), zero-padded as
`HH:MM:SS,mmm`. -/
def specTimestamp (s : ℚ) : String :=
  padZeros 2 ⌊s / 3600⌋ ++ ":" ++ padZeros 2 (⌊s / 60⌋ % 60) ++ ":" ++
    padZeros 2 (⌊s⌋ % 60) ++ "," ++ padZeros 3 (⌊s * 1000⌋ % 1000)

theorem intercalate_go_eq (s : String) :
    ∀ (l : List String) (acc : String),
      String.intercalate.go acc s l = acc ++ l.foldr (fun x r => s ++ x ++ r) ""
  | [], acc => by simp [String.intercalate.go]
  | a :: as, acc => by
    rw [String.intercalate.go, intercalate_go_eq s as]
    simp [String.append_assoc]

theorem intercalate_cons (s a : String) (l : List String) :
    String.intercalate s (a :: l) = a ++ l.foldr (fun x r => s ++ x ++ r) "" := by
  rw [String.intercalate, intercalate_go_eq]

theorem foldr_sep (s : String) (l : List String) (h : l ≠ []) :
    l.foldr (fun x r => s ++ x ++ r) "" = s ++ String.intercalate s l := by
  cases l with
  | nil => exact absurd rfl h
  | cons b bs => rw [List.foldr_cons, intercalate_cons]; simp [String.append_assoc]

theorem intercalate_append_sep (s : String) :
    ∀ (g r : List String), g ≠ [] → r ≠ [] →
      String.intercalate s (g ++ r) =
        String.intercalate s g ++ s ++ String.intercalate s r
  | [], _, hg, _ => absurd rfl hg
  | [a], r, _, hr => by
    simp only [List.cons_append, List.nil_append, intercalate_cons, foldr_sep s r hr]
    simp [String.append_assoc]
  | a :: b :: g', r, _, hr => by
    have ih := intercalate_append_sep s (b :: g') r (by simp) hr
    simp only [List.cons_append] at ih ⊢
    rw [intercalate_cons, foldr_sep s (b :: (g' ++ r)) (by simp), ih,
      intercalate_cons s a (b :: g'), foldr_sep s (b :: g') (by simp)]
    simp [String.append_assoc]

theorem flatten_ne_nil_of_head (g : List String) (gs : List (List String)) (hg : g ≠ []) :
    (g :: gs).flatten ≠ [] := by
  cases g with
  | nil => exact absurd rfl hg
  | cons x xs => simp

theorem intercalate_map_groups :
    ∀ (gs : List (List String)), (∀ g ∈ gs, g ≠ []) →
      String.intercalate " " (gs.map (String.intercalate " ")) =
        String.intercalate " " gs.flatten
  | [], _ => rfl
  | [g], _ => by simp [intercalate_cons]
  | g :: g2 :: gs2, h => by
    have hg : g ≠ [] := h g (by simp)
    have ih := intercalate_map_groups (g2 :: gs2) (fun x hx => h x (by simp [hx]))
    have hflat : (g2 :: gs2).flatten ≠ [] :=
      flatten_ne_nil_of_head g2 gs2 (h g2 (by simp))
    calc String.intercalate " " ((g :: g2 :: gs2).map (String.intercalate " "))
        = String.intercalate " "
            ([String.intercalate " " g] ++ (g2 :: gs2).map (String.intercalate " ")) := by
          simp
      _ = String.intercalate " " [String.intercalate " " g] ++ " " ++
            String.intercalate " " ((g2 :: gs2).map (String.intercalate " ")) :=
          intercalate_append_sep _ _ _ (by simp) (by simp)
      _ = String.intercalate " " g ++ " " ++
            String.intercalate " " ((g2 :: gs2).flatten) := by
          rw [ih]; simp [intercalate_cons]
      _ = String.intercalate " " (g ++ (g2 :: gs2).flatten) :=
          (intercalate_append_sep _ _ _ hg hflat).symm
      _ = String.intercalate " " ((g :: g2 :: gs2).flatten) := by simp

theorem innerLoop_spec (ws : List TimedWord) :
    ∀ (b i : Nat) (acc : List String), i ≤ ws.length →
      innerLoop ws b i acc =
        (acc ++ ((ws.drop i).take b).map (fun w => pyStrip w.word),
          min (i + b) ws.length)
  | 0, i, acc, hi => by
    simp [innerLoop, Nat.min_eq_left hi]
  | b + 1, i, acc, hi => by
    by_cases h : i < ws.length
    · rw [innerLoop, dif_pos h,
        innerLoop_spec ws b (i + 1) _ (by omega)]
      rw [List.drop_eq_getElem_cons h, List.take_succ_cons, List.map_cons]
      simp only [Prod.mk.injEq]
      exact ⟨by simp [List.get_eq_getElem, List.append_assoc], by omega⟩
    · have hi' : i = ws.length := by omega
      rw [innerLoop, dif_neg h]
      subst hi'
      simp [List.drop_length]

theorem drop_min_length (ws : List TimedWord) (n : Nat) :
    ws.drop (min n ws.length) = ws.drop n := by
  rcases le_total n ws.length with h | h
  · rw [Nat.min_eq_left h]
  · rw [Nat.min_eq_right h, List.drop_length, List.drop_eq_nil_of_le h]

theorem groupsOf_length {α : Type} (wpl : Nat) (hw : 1 ≤ wpl) :
    ∀ (l : List α), (groupsOf wpl l).length = (l.length + wpl - 1) / wpl
  | [] => by
    rw [groupsOf]
    simp only [List.length_nil, Nat.zero_add]
    exact (Nat.div_eq_of_lt (by omega)).symm
  | x :: xs => by
    rw [groupsOf]
    have ih := groupsOf_length wpl hw (xs.drop (wpl - 1))
    simp only [List.length_cons, List.length_drop] at *
    rw [ih]
    rcases le_or_lt (wpl - 1) xs.length with h | h
    · have h1 : xs.length - (wpl - 1) + wpl - 1 = xs.length := by omega
      have h2 : xs.length + 1 + wpl - 1 = xs.length + wpl := by omega
      rw [h1, h2, Nat.add_div_right _ (by omega)]
    · have h1 : xs.length - (wpl - 1) + wpl - 1 = wpl - 1 := by omega
      have h2 : xs.length + 1 + wpl - 1 = xs.length + wpl := by omega
      rw [h1, h2, Nat.add_div_right _ (by omega),
        Nat.div_eq_of_lt (by omega), Nat.div_eq_of_lt (by omega)]
termination_by l => l.length
decreasing_by simp [List.length_drop]; omega

theorem groupsOf_flatten {α : Type} (wpl : Nat) :
    ∀ (l : List α), (groupsOf wpl l).flatten = l
  | [] => by rw [groupsOf]; rfl
  | x :: xs => by
    rw [groupsOf]
    simp [groupsOf_flatten wpl (xs.drop (wpl - 1)), List.take_append_drop]
termination_by l => l.length
decreasing_by simp [List.length_drop]; omega

theorem groupsOf_ne_nil {α : Type} (wpl : Nat) :
    ∀ (l : List α), ∀ g ∈ groupsOf wpl l, g ≠ []
  | [] => by rw [groupsOf]; simp
  | x :: xs => by
    rw [groupsOf]
    intro g hg
    rcases List.mem_cons.mp hg with h | h
    · subst h; simp
    · exact groupsOf_ne_nil wpl (xs.drop (wpl - 1)) g h
termination_by l => l.length
decreasing_by simp [List.length_drop]; omega

theorem outerLoop_spec (wpl : Nat) (hw : 1 ≤ wpl) (ws : List TimedWord) :
    ∀ (fuel i idx : Nat), i ≤ ws.length → ws.length - i ≤ fuel →
      ∃ cues, outerLoop wpl ws fuel i idx = some cues ∧
        cues.map Cue.text =
          (groupsOf wpl ((ws.drop i).map (fun w => pyStrip w.word))).map
            (String.intercalate " ") ∧
        cues.length =
          (groupsOf wpl ((ws.drop i).map (fun w => pyStrip w.word))).length
  | 0, i, idx, hi, hfuel => by
    have : i = ws.length := by omega
    subst this
    refine ⟨[], ?_, ?_, ?_⟩ <;> simp [outerLoop, List.drop_length, groupsOf]
  | fuel + 1, i, idx, hi, hfuel => by
    by_cases h : i < ws.length
    · obtain ⟨w', rfl⟩ := Nat.exists_eq_succ_of_ne_zero (by omega : wpl ≠ 0)
      rw [outerLoop, dif_pos h]
      rw [innerLoop_spec ws (w' + 1) i [] hi]
      have hstep : min (i + (w' + 1)) ws.length ≤ ws.length := by omega
      have hfuel' : ws.length - min (i + (w' + 1)) ws.length ≤ fuel := by omega
      obtain ⟨rest, hrest, htext, hlen⟩ :=
        outerLoop_spec (w' + 1) hw ws fuel (min (i + (w' + 1)) ws.length) (idx + 1)
          hstep hfuel'
      simp only [List.nil_append]
      rw [hrest]
      have hcons : (ws.drop i).map (fun w => pyStrip w.word) =
          pyStrip ws[i].word :: (ws.drop (i + 1)).map (fun w => pyStrip w.word) := by
        rw [List.drop_eq_getElem_cons h, List.map_cons]
      have htake : (List.take (w' + 1) (ws.drop i)).map (fun w => pyStrip w.word) =
          pyStrip ws[i].word :: (List.take w' (ws.drop (i + 1))).map (fun w => pyStrip w.word) := by
        rw [List.drop_eq_getElem_cons h, List.take_succ_cons, List.map_cons]
      have hdd : (ws.drop (i + 1)).drop w' = ws.drop ((i + (w' + 1)) ⊓ ws.length) := by
        rw [List.drop_drop, drop_min_length]
        congr 1
        omega
      have hxs : ((ws.drop (i + 1)).map (fun w => pyStrip w.word)).drop w' =
          (ws.drop ((i + (w' + 1)) ⊓ ws.length)).map (fun w => pyStrip w.word) := by
        rw [← List.map_drop, hdd]
      refine ⟨_, rfl, ?_, ?_⟩
      · rw [hcons, groupsOf]
        simp only [Nat.succ_sub_one, Nat.add_sub_cancel]
        rw [List.map_cons, htext, htake]
        congr 2
        · rw [List.map_take]
        · rw [hxs]
      · rw [hcons, groupsOf]
        simp only [Nat.succ_sub_one, Nat.add_sub_cancel, List.length_cons]
        rw [hlen, hxs]
    · have : i = ws.length := by omega
      subst this
      rw [outerLoop, dif_neg h]
      refine ⟨[], rfl, ?_, ?_⟩ <;> simp [List.drop_length, groupsOf]

theorem outerLoop_indices (wpl : Nat) (ws : List TimedWord) :
    ∀ (fuel i idx : Nat) (cues : List Cue),
      outerLoop wpl ws fuel i idx = some cues →
      cues.map Cue.index = List.range' idx cues.length
  | 0, i, idx, cues, hres => by
    rw [outerLoop] at hres
    split at hres
    · exact absurd hres (by simp)
    · cases hres
      rfl
  | fuel + 1, i, idx, cues, hres => by
    rw [outerLoop] at hres
    split at hres
    · simp only [] at hres
      split at hres
      · exact absurd hres (by simp)
      · rename_i rest hrec
        cases hres
        have ih := outerLoop_indices wpl ws fuel (innerLoop ws wpl i []).2 (idx + 1) rest hrec
        simp only [List.map_cons, List.length_cons, ih, List.range'_succ]
    · cases hres
      rfl

theorem srtCues_skip (wpl : Nat) (post : List Segment) :
    ∀ (pre : List Segment) (idx : Nat),
      srtCues wpl (pre ++ ⟨none⟩ :: post) idx = srtCues wpl (pre ++ post) idx
  | [], idx => by
    rw [List.nil_append, List.nil_append, srtCues]
  | seg :: pre, idx => by
    rw [List.cons_append, List.cons_append, srtCues, srtCues]
    cases hw : seg.words with
    | none => exact srtCues_skip wpl post pre idx
    | some ws =>
      dsimp only []
      cases hseg : segmentCues wpl ws idx with
      | none => rfl
      | some cues =>
        dsimp only []
        rw [srtCues_skip wpl post pre (idx + cues.length)]

theorem srtCues_indices (wpl : Nat) :
    ∀ (segs : List Segment) (idx : Nat) (cues : List Cue),
      srtCues wpl segs idx = some cues →
      cues.map Cue.index = List.range' idx cues.length
  | [], idx, cues, hres => by
    rw [srtCues] at hres
    cases hres
    rfl
  | seg :: rest, idx, cues, hres => by
    rw [srtCues] at hres
    cases hw : seg.words with
    | none =>
      rw [hw] at hres
      exact srtCues_indices wpl rest idx cues hres
    | some ws =>
      rw [hw] at hres
      dsimp only [] at hres
      cases hseg : segmentCues wpl ws idx with
      | none => rw [hseg] at hres; exact absurd hres (by simp)
      | some c1 =>
        rw [hseg] at hres
        dsimp only [] at hres
        cases hrest : srtCues wpl rest (idx + c1.length) with
        | none => rw [hrest] at hres; exact absurd hres (by simp)
        | some more =>
          rw [hrest] at hres
          dsimp only [] at hres
          cases hres
          have h1 := outerLoop_indices wpl ws ws.length 0 idx c1 hseg
          have h2 := srtCues_indices wpl rest (idx + c1.length) more hrest
          rw [List.map_append, h1, h2, List.length_append, List.range'_append_1,
            Nat.add_comm c1.length more.length]

theorem srtCues_isSome (wpl : Nat) (hw : 1 ≤ wpl) :
    ∀ (segs : List Segment) (idx : Nat), (srtCues wpl segs idx).isSome
  | [], idx => by rw [srtCues]; rfl
  | seg :: rest, idx => by
    rw [srtCues]
    cases hws : seg.words with
    | none => exact srtCues_isSome wpl hw rest idx
    | some ws =>
      dsimp only []
      obtain ⟨c1, hc1, -, -⟩ :=
        outerLoop_spec wpl hw ws ws.length 0 idx (by omega) (by omega)
      rw [show segmentCues wpl ws idx = some c1 from hc1]
      dsimp only []
      have := srtCues_isSome wpl hw rest (idx + c1.length)
      cases hrest : srtCues wpl rest (idx + c1.length) with
      | none => rw [hrest] at this; exact absurd this (by simp)
      | some more => rfl

theorem pyFloorDiv_eq (a b : ℚ) : pyFloorDiv a b = (⌊a / b⌋ : ℚ) := by
  unfold pyFloorDiv
  rw [Int.fdiv_eq_ediv _ (Int.ofNat_nonneg _), ← Rat.floor_def]

theorem pyInt_intCast (n : ℤ) : pyInt (n : ℚ) = n := by
  unfold pyInt
  rw [Rat.num_intCast, Rat.den_intCast]
  exact Int.tdiv_one n

theorem pyInt_eq_floor (q : ℚ) (h : 0 ≤ q) : pyInt q = ⌊q⌋ := by
  unfold pyInt
  rw [Rat.floor_def]
  exact Int.tdiv_eq_ediv (Rat.num_nonneg.mpr h) (Int.ofNat_nonneg _)

theorem pyMod_eq (a b : ℚ) : pyMod a b = a - b * (⌊a / b⌋ : ℚ) := by
  unfold pyMod
  rw [pyFloorDiv_eq]

theorem pyMod_eq_fract (a b : ℚ) (hb : b ≠ 0) : pyMod a b = b * Int.fract (a / b) := by
  rw [pyMod_eq, Int.fract]
  field_simp

theorem pyMod_nonneg (a b : ℚ) (hb : 0 < b) : 0 ≤ pyMod a b := by
  rw [pyMod_eq_fract a b hb.ne']
  exact mul_nonneg hb.le (Int.fract_nonneg _)

theorem pyMod_lt (a b : ℚ) (hb : 0 < b) : pyMod a b < b := by
  rw [pyMod_eq_fract a b hb.ne']
  calc b * Int.fract (a / b) < b * 1 :=
        (mul_lt_mul_left hb).mpr (Int.fract_lt_one _)
    _ = b := mul_one b

theorem floor_div_natCast (r : ℚ) (n : ℕ) (hn : 0 < n) :
    ⌊r / (n : ℚ)⌋ = ⌊r⌋ / (n : ℤ) := by
  have hnq : (0 : ℚ) < (n : ℚ) := by exact_mod_cast hn
  rw [← Rat.floor_intCast_div_natCast ⌊r⌋ n]
  apply le_antisymm
  · apply Int.le_floor.mpr
    rw [le_div_iff₀ hnq]
    have h2 : ((⌊r / (n : ℚ)⌋ : ℚ)) * (n : ℚ) ≤ r := by
      calc ((⌊r / (n : ℚ)⌋ : ℚ)) * (n : ℚ) ≤ (r / (n : ℚ)) * (n : ℚ) :=
            mul_le_mul_of_nonneg_right (Int.floor_le _) hnq.le
        _ = r := div_mul_cancel₀ r hnq.ne'
    have h3 : ⌊r / (n : ℚ)⌋ * (n : ℤ) ≤ ⌊r⌋ :=
      Int.le_floor.mpr (by push_cast; exact h2)
    exact_mod_cast h3
  · apply Int.floor_le_floor
    gcongr
    exact Int.floor_le r

theorem hours_component (s : ℚ) : pyInt (pyFloorDiv s 3600) = ⌊s / 3600⌋ := by
  rw [pyFloorDiv_eq, pyInt_intCast]

theorem minutes_component (s : ℚ) :
    pyInt (pyFloorDiv (pyMod s 3600) 60) = ⌊s / 60⌋ % 60 := by
  rw [pyFloorDiv_eq, pyInt_intCast, pyMod_eq]
  have h1 : (s - 3600 * (⌊s / 3600⌋ : ℚ)) / 60 =
      s / 60 - ((60 * ⌊s / 3600⌋ : ℤ) : ℚ) := by
    push_cast
    ring
  rw [h1, Int.floor_sub_int]
  have h2 : ⌊s / 3600⌋ = ⌊s / 60⌋ / 60 := by
    have h3 := floor_div_natCast (s / 60) 60 (by norm_num)
    push_cast at h3
    rw [← h3, div_div]
    norm_num
  rw [h2, Int.emod_def]

theorem secs_component (s : ℚ) : pyInt (pyMod s 60) = ⌊s⌋ % 60 := by
  rw [pyInt_eq_floor _ (pyMod_nonneg s 60 (by norm_num)), pyMod_eq]
  have h1 : s - 60 * (⌊s / 60⌋ : ℚ) = s - ((60 * ⌊s / 60⌋ : ℤ) : ℚ) := by
    push_cast
    ring
  rw [h1, Int.floor_sub_int]
  have h2 := floor_div_natCast s 60 (by norm_num)
  push_cast at h2
  rw [h2, Int.emod_def]

theorem ms_component (s : ℚ) : pyInt (pyMod s 1 * 1000) = ⌊s * 1000⌋ % 1000 := by
  rw [pyInt_eq_floor _ (mul_nonneg (pyMod_nonneg s 1 one_pos) (by norm_num)), pyMod_eq]
  have h1 : (s - 1 * (⌊s / 1⌋ : ℚ)) * 1000 = s * 1000 - ((1000 * ⌊s⌋ : ℤ) : ℚ) := by
    push_cast
    rw [div_one]
    ring
  rw [h1, Int.floor_sub_int]
  have h2 := floor_div_natCast (s * 1000) 1000 (by norm_num)
  push_cast at h2
  have h3 : ⌊s⌋ = ⌊s * 1000⌋ / 1000 := by
    rw [← h2]
    congr 1
    field_simp
  rw [h3, Int.emod_def]

theorem format_timestamp_eq_spec (s : ℚ) : format_timestamp s = specTimestamp s := by
  rw [format_timestamp, specTimestamp,
    hours_component, minutes_component, secs_component, ms_component]

theorem storeGet_storeSet_self : ∀ (st : JobStore) (id : String) (r : JobRecord),
    storeGet (storeSet st id r) id = some r
  | [], id, r => by rw [storeSet, storeGet, if_pos rfl]
  | e :: rest, id, r => by
    rw [storeSet]
    by_cases h : e.1 = id
    · rw [if_pos h, storeGet, if_pos rfl]
    · rw [if_neg h, storeGet, if_neg h]
      exact storeGet_storeSet_self rest id r

theorem storeSet_absent : ∀ (st : JobStore) (id : String) (r : JobRecord),
    storeGet st id = none → storeSet st id r = st ++ [(id, r)]
  | [], _, _, _ => rfl
  | e :: rest, id, r, h => by
    rw [storeGet] at h
    by_cases he : e.1 = id
    · rw [if_pos he] at h
      exact absurd h (by simp)
    · rw [if_neg he] at h
      rw [storeSet, if_neg he, storeSet_absent rest id r h, List.cons_append]

theorem storeDel_eq_filter : ∀ (st : JobStore) (id : String),
    (st.map Prod.fst).Nodup →
    storeDel st id = st.filter (fun e => !decide (e.1 = id))
  | [], _, _ => rfl
  | e :: rest, id, hnd => by
    simp only [List.map_cons, List.nodup_cons] at hnd
    rw [storeDel, List.filter_cons]
    by_cases h : e.1 = id
    · rw [if_pos h]
      have hrest : List.filter (fun e => !decide (e.1 = id)) rest = rest := by
        apply List.filter_eq_self.mpr
        intro a ha
        have hmem : a.1 ∈ rest.map Prod.fst := List.mem_map_of_mem Prod.fst ha
        have hne : a.1 ≠ id := by
          intro hcontra
          exact hnd.1 (by rw [h]; rwa [hcontra] at hmem)
        simp [hne]
      simp [h, hrest]
    · rw [if_neg h, if_pos (by simp [h]), storeDel_eq_filter rest id hnd.2]

theorem foldl_storeDel : ∀ (R : List String) (st : JobStore),
    (st.map Prod.fst).Nodup →
    List.foldl storeDel st R = st.filter (fun e => !decide (e.1 ∈ R))
  | [], st, _ => by simp
  | id :: R, st, hnd => by
    have hnd2 : ((st.filter (fun e => !decide (e.1 = id))).map Prod.fst).Nodup :=
      hnd.sublist ((List.filter_sublist st).map Prod.fst)
    rw [List.foldl_cons, storeDel_eq_filter st id hnd, foldl_storeDel R _ hnd2,
      List.filter_filter]
    apply List.filter_congr
    intro e _
    simp only [List.mem_cons]
    by_cases h1 : e.1 = id <;> by_cases h2 : e.1 ∈ R <;> simp [h1, h2]

theorem removal_entry_iff (now : ℚ) (a : String × JobRecord) (x : String) :
    (match parseTaskTime a.1 with
      | none => none
      | some t => if now - t > 1800 then some a.1 else none) = some x ↔
    x = a.1 ∧ evictable now a.1 = true := by
  unfold evictable
  cases parseTaskTime a.1 with
  | none => simp
  | some t =>
    by_cases h : now - t > 1800
    · simp [h, eq_comm]
    · simp [h]

theorem cleanup_pass_eq_filter (now : ℚ) (st : JobStore)
    (hnd : (st.map Prod.fst).Nodup) :
    cleanup_pass now st = st.filter (fun e => !evictable now e.1) := by
  rw [cleanup_pass, foldl_storeDel _ _ hnd]
  apply List.filter_congr
  intro e he
  have hiff : (e.1 ∈ st.filterMap (fun a =>
      match parseTaskTime a.1 with
      | none => none
      | some t => if now - t > 1800 then some a.1 else none)) ↔
      evictable now e.1 = true := by
    rw [List.mem_filterMap]
    constructor
    · rintro ⟨a, _, ha⟩
      obtain ⟨heq, hev⟩ := (removal_entry_iff now a e.1).mp ha
      rw [heq]
      exact hev
    · intro hev
      exact ⟨e, he, (removal_entry_iff now e e.1).mpr ⟨rfl, hev⟩⟩
  cases hev : evictable now e.1 with
  | true => simp [hiff.mpr hev]
  | false =>
    have hmem : e.1 ∉ st.filterMap (fun a =>
        match parseTaskTime a.1 with
        | none => none
        | some t => if now - t > 1800 then some a.1 else none) := by
      intro hm
      rw [hiff] at hm
      rw [hm] at hev
      cases hev
    simp [hmem]

theorem srtCues_single (wpl : Nat) (ws : List TimedWord) (c1 : List Cue)
    (h : segmentCues wpl ws 1 = some c1) :
    srtCues wpl [⟨some ws⟩] 1 = some c1 := by
  rw [srtCues]
  dsimp only []
  rw [h]
  dsimp only []
  rw [srtCues]
  simp

theorem outerLoop_zero_stuck (ws : List TimedWord) (hne : ws ≠ []) :
    ∀ (fuel idx : Nat), outerLoop 0 ws fuel 0 idx = none
  | 0, _ => by
    have hlen : 0 < ws.length := List.length_pos.mpr hne
    rw [outerLoop, if_pos hlen]
  | fuel + 1, idx => by
    have hlen : 0 < ws.length := List.length_pos.mpr hne
    rw [outerLoop, dif_pos hlen]
    dsimp only []
    rw [show (innerLoop ws 0 0 []).2 = 0 from rfl,
      outerLoop_zero_stuck ws hne fuel (idx + 1)]

/-- C1: for every `wordsPerLine ≥ 1` and every segment whose word list is
`ws`, `create_srt_content` emits exactly `⌈|ws| / wordsPerLine⌉` cues
(`(|ws| + wpl - 1) / wpl` in truncating arithmetic), whose texts are the
spec's consecutive groups of `wordsPerLine` stripped words (the final group
possibly shorter) joined by single spaces, and concatenating the cue texts in
order reproduces the stripped word texts joined by single spaces. -/
theorem create_srt_content_cues_per_segment (wpl : Nat) (hw : 1 ≤ wpl)
    (ws : List TimedWord) (cues : List Cue)
    (hres : srtCues wpl [⟨some ws⟩] 1 = some cues) :
    create_srt_content [⟨some ws⟩] wpl =
      some (String.intercalate "\n" (cues.flatMap cueLines)) ∧
    cues.length = (ws.length + wpl - 1) / wpl ∧
    cues.map Cue.text =
      (groupsOf wpl (ws.map (fun w => pyStrip w.word))).map (String.intercalate " ") ∧
    String.intercalate " " (cues.map Cue.text) =
      String.intercalate " " (ws.map (fun w => pyStrip w.word)) := by
  obtain ⟨c1, hc1, htext, hlen⟩ :=
    outerLoop_spec wpl hw ws ws.length 0 1 (by omega) (by omega)
  simp only [List.drop_zero] at htext hlen
  have hsingle := srtCues_single wpl ws c1 hc1
  have hcues : c1 = cues := by
    rw [hres] at hsingle
    exact (Option.some.inj hsingle).symm
  subst hcues
  refine ⟨?_, ?_, htext, ?_⟩
  · rw [create_srt_content, hres]
    rfl
  · rw [hlen, groupsOf_length wpl hw, List.length_map]
  · rw [htext, intercalate_map_groups _ (groupsOf_ne_nil wpl _), groupsOf_flatten]

/-- C1 witness: the claim instantiated at three words, two per line
(two cues: "Hello world" then "tres"). -/
theorem create_srt_content_cues_per_segment_witness :
    1 ≤ 2 ∧
    srtCues 2 [⟨some [⟨"Hello ", 0, 1⟩, ⟨" world", 2, 3⟩, ⟨"tres", 4, 5⟩]⟩] 1 =
      some [⟨1, 0, 3, "Hello world"⟩, ⟨2, 4, 5, "tres"⟩] ∧
    (create_srt_content [⟨some [⟨"Hello ", 0, 1⟩, ⟨" world", 2, 3⟩, ⟨"tres", 4, 5⟩]⟩] 2 =
      some (String.intercalate "\n"
        (([⟨1, 0, 3, "Hello world"⟩, ⟨2, 4, 5, "tres"⟩] : List Cue).flatMap cueLines)) ∧
    ([⟨1, 0, 3, "Hello world"⟩, ⟨2, 4, 5, "tres"⟩] : List Cue).length =
      (([⟨"Hello ", 0, 1⟩, ⟨" world", 2, 3⟩, ⟨"tres", 4, 5⟩] : List TimedWord).length + 2 - 1) / 2 ∧
    ([⟨1, 0, 3, "Hello world"⟩, ⟨2, 4, 5, "tres"⟩] : List Cue).map Cue.text =
      (groupsOf 2 (([⟨"Hello ", 0, 1⟩, ⟨" world", 2, 3⟩, ⟨"tres", 4, 5⟩] : List TimedWord).map
        (fun w => pyStrip w.word))).map (String.intercalate " ") ∧
    String.intercalate " "
        (([⟨1, 0, 3, "Hello world"⟩, ⟨2, 4, 5, "tres"⟩] : List Cue).map Cue.text) =
      String.intercalate " "
        (([⟨"Hello ", 0, 1⟩, ⟨" world", 2, 3⟩, ⟨"tres", 4, 5⟩] : List TimedWord).map
          (fun w => pyStrip w.word))) :=
  ⟨by norm_num, by decide,
   create_srt_content_cues_per_segment 2 (by norm_num)
     [⟨"Hello ", 0, 1⟩, ⟨" world", 2, 3⟩, ⟨"tres", 4, 5⟩]
     [⟨1, 0, 3, "Hello world"⟩, ⟨2, 4, 5, "tres"⟩] (by decide)⟩

/-- C4: for every `wordsPerLine ≥ 1`, inserting a segment without a `'words'`
key anywhere leaves the output of the segmenter exactly unchanged (it
contributes zero cues, shifts no indices, and does not fail the operation,
which still succeeds), and the cue indices of any output form the consecutive
sequence `1..K` with no gaps across segment boundaries. -/
theorem cue_indices_sequential_skip_segments (wpl : Nat) (hw : 1 ≤ wpl)
    (pre post : List Segment) (idx : Nat) (segs : List Segment) (cues : List Cue)
    (hres : srtCues wpl segs 1 = some cues) :
    srtCues wpl (pre ++ ⟨none⟩ :: post) idx = srtCues wpl (pre ++ post) idx ∧
    (srtCues wpl (pre ++ ⟨none⟩ :: post) idx).isSome ∧
    cues.map Cue.index = List.range' 1 cues.length :=
  ⟨srtCues_skip wpl post pre idx,
   by rw [srtCues_skip wpl post pre idx]; exact srtCues_isSome wpl hw _ _,
   srtCues_indices wpl segs 1 cues hres⟩

/-- C4 witness: a words-less segment between two one-word segments
contributes nothing, and the indices are `[1, 2]`. -/
theorem cue_indices_sequential_skip_segments_witness :
    1 ≤ 1 ∧
    srtCues 1 [⟨some [⟨"a", 0, 1⟩]⟩, ⟨none⟩, ⟨some [⟨"b", 2, 3⟩]⟩] 1 =
      some [⟨1, 0, 1, "a"⟩, ⟨2, 2, 3, "b"⟩] ∧
    (srtCues 1 ([] ++ ⟨none⟩ :: []) 1 = srtCues 1 ([] ++ []) 1 ∧
    (srtCues 1 ([] ++ ⟨none⟩ :: []) 1).isSome ∧
    ([⟨1, 0, 1, "a"⟩, ⟨2, 2, 3, "b"⟩] : List Cue).map Cue.index =
      List.range' 1 ([⟨1, 0, 1, "a"⟩, ⟨2, 2, 3, "b"⟩] : List Cue).length) :=
  ⟨by norm_num, by decide,
   cue_indices_sequential_skip_segments 1 (by norm_num) [] [] 1
     [⟨some [⟨"a", 0, 1⟩]⟩, ⟨none⟩, ⟨some [⟨"b", 2, 3⟩]⟩]
     [⟨1, 0, 1, "a"⟩, ⟨2, 2, 3, "b"⟩] (by decide)⟩

/-- C10: the segmenter terminates on every finite segment list whenever
`wordsPerLine ≥ 1` (the fuelled loop returns a result), while for
`wordsPerLine = 0` — the behaviour of every non-positive Python value, since
the inner guard `word_count < words_per_line` is then immediately false — a
non-empty word list makes the outer loop consume no words and run forever
(`none` for every fuel), so positivity is a genuine precondition of
totality. -/
theorem segmenter_termination (wpl : Nat) (segs : List Segment)
    (ws : List TimedWord) (fuel idx : Nat) (hw : 1 ≤ wpl) (hne : ws ≠ []) :
    (create_srt_content segs wpl).isSome ∧
    outerLoop 0 ws fuel 0 idx = none := by
  constructor
  · rw [create_srt_content]
    have hsome := srtCues_isSome wpl hw segs 1
    cases h : srtCues wpl segs 1 with
    | none => rw [h] at hsome; exact absurd hsome (by simp)
    | some cs => rfl
  · exact outerLoop_zero_stuck ws hne fuel idx

/-- C10 witness: termination at `wordsPerLine = 1` on a one-word segment,
divergence of the zero-width loop on the same word list. -/
theorem segmenter_termination_witness :
    1 ≤ 1 ∧ ([⟨"a", 0, 1⟩] : List TimedWord) ≠ [] ∧
    ((create_srt_content [⟨some [⟨"a", 0, 1⟩]⟩] 1).isSome ∧
    outerLoop 0 [⟨"a", 0, 1⟩] 7 0 1 = none) :=
  ⟨by norm_num, by decide,
   segmenter_termination 1 [⟨some [⟨"a", 0, 1⟩]⟩] [⟨"a", 0, 1⟩] 7 1
     (by norm_num) (by decide)⟩

/-- The multipart request used to exhibit the `words_per_line = 0` defect:
a valid audio part and the form field `words_per_line` set to `"0"`. -/
def zeroWplRequest : TranscribeRequest :=
  { audio := some [1], words_per_line_field := some "0",
    model_size_field := some "base", language_field := some "es",
    task_id_field := some "t1" }

/-- C2: the claim is right and the code is wrong.  `"0".isdigit()` is true,
so `handle_transcribe` parses `words_per_line = 0`, accepts the request with
HTTP 200 (`started`), creates the job-store entry, and hands 0 to the
runner — no 400 rejection happens anywhere; and with 0 words per line the
segmenter's outer loop never consumes a word, so on any non-empty word list
it runs forever (`none` for every fuel). -/
theorem words_per_line_zero_accepted :
    parse_words_per_line "0" = 0 ∧
    (handle_transcribe [] "gen-uuid" zeroWplRequest).response = HttpResponse.ok "t1" ∧
    (handle_transcribe [] "gen-uuid" zeroWplRequest).store = [("t1", uploadingRec)] ∧
    (handle_transcribe [] "gen-uuid" zeroWplRequest).runnerArgs =
      some ("base", 0, some "es", "t1") ∧
    ∀ (fuel idx : Nat), outerLoop 0 [⟨"palabra", 0, 1⟩] fuel 0 idx = none :=
  ⟨by decide, by decide, by decide, by decide,
   fun fuel idx => outerLoop_zero_stuck [⟨"palabra", 0, 1⟩] (by simp) fuel idx⟩

/-- C3: for every nonnegative seconds value, `format_timestamp` renders the
fixed form `HH:MM:SS,mmm` with each component truncated (floored) rather
than rounded and hours unbounded (`⌊s/3600⌋`, never reduced mod 24), per
`specTimestamp`; in particular 3725.125 renders exactly as `01:02:05,125`,
and the boundary values 0, 59.999, 3600 (and a beyond-24h value) truncate
the same way.  (The source computes on IEEE doubles; this embedding is exact
rational arithmetic, which agrees with the doubles on every value here —
e.g. the double nearest 59.999 lies slightly above it, so both produce
millisecond 999.) -/
theorem format_timestamp_truncation (s : ℚ) (_h : 0 ≤ s) :
    format_timestamp s = specTimestamp s ∧
    format_timestamp (3725.125 : ℚ) = "01:02:05,125" ∧
    format_timestamp 0 = "00:00:00,000" ∧
    format_timestamp (59.999 : ℚ) = "00:00:59,999" ∧
    format_timestamp 3600 = "01:00:00,000" ∧
    format_timestamp 90000 = "25:00:00,000" := by
  refine ⟨format_timestamp_eq_spec s, ?_, ?_, ?_, ?_, ?_⟩
  · have h1 : ⌊(3725.125 : ℚ) / 3600⌋ = 1 := by norm_num
    have h2 : ⌊(3725.125 : ℚ) / 60⌋ = 62 := by norm_num
    have h3 : ⌊(3725.125 : ℚ)⌋ = 3725 := by norm_num
    have h4 : ⌊(3725.125 : ℚ) * 1000⌋ = 3725125 := by norm_num
    rw [format_timestamp_eq_spec]
    simp only [specTimestamp, h1, h2, h3, h4]
    decide
  · have h1 : ⌊(0 : ℚ) / 3600⌋ = 0 := by norm_num
    have h2 : ⌊(0 : ℚ) / 60⌋ = 0 := by norm_num
    have h3 : ⌊(0 : ℚ)⌋ = 0 := by norm_num
    have h4 : ⌊(0 : ℚ) * 1000⌋ = 0 := by norm_num
    rw [format_timestamp_eq_spec]
    simp only [specTimestamp, h1, h2, h3, h4]
    decide
  · have h1 : ⌊(59.999 : ℚ) / 3600⌋ = 0 := by norm_num
    have h2 : ⌊(59.999 : ℚ) / 60⌋ = 0 := by norm_num
    have h3 : ⌊(59.999 : ℚ)⌋ = 59 := by norm_num
    have h4 : ⌊(59.999 : ℚ) * 1000⌋ = 59999 := by norm_num
    rw [format_timestamp_eq_spec]
    simp only [specTimestamp, h1, h2, h3, h4]
    decide
  · have h1 : ⌊(3600 : ℚ) / 3600⌋ = 1 := by norm_num
    have h2 : ⌊(3600 : ℚ) / 60⌋ = 60 := by norm_num
    have h3 : ⌊(3600 : ℚ)⌋ = 3600 := by norm_num
    have h4 : ⌊(3600 : ℚ) * 1000⌋ = 3600000 := by norm_num
    rw [format_timestamp_eq_spec]
    simp only [specTimestamp, h1, h2, h3, h4]
    decide
  · have h1 : ⌊(90000 : ℚ) / 3600⌋ = 25 := by norm_num
    have h2 : ⌊(90000 : ℚ) / 60⌋ = 1500 := by norm_num
    have h3 : ⌊(90000 : ℚ)⌋ = 90000 := by norm_num
    have h4 : ⌊(90000 : ℚ) * 1000⌋ = 90000000 := by norm_num
    rw [format_timestamp_eq_spec]
    simp only [specTimestamp, h1, h2, h3, h4]
    decide

/-- C3 witness: the claim instantiated at the spec's example input
3725.125 seconds. -/
theorem format_timestamp_truncation_witness :
    (0 : ℚ) ≤ (3725.125 : ℚ) ∧
    (format_timestamp (3725.125 : ℚ) = specTimestamp (3725.125 : ℚ) ∧
    format_timestamp (3725.125 : ℚ) = "01:02:05,125" ∧
    format_timestamp 0 = "00:00:00,000" ∧
    format_timestamp (59.999 : ℚ) = "00:00:59,999" ∧
    format_timestamp 3600 = "01:00:00,000" ∧
    format_timestamp 90000 = "25:00:00,000") :=
  ⟨by norm_num, format_timestamp_truncation (3725.125 : ℚ) (by norm_num)⟩

/-- C5 counterexample: the claim is false at a concrete input.  For a job
whose transcription call fails, the store receives progress values
10, 20, 40 and then 0 — the terminal failure write resets `progress` to 0,
so the sequence of progress values over the job's lifetime is not
monotonically non-decreasing. -/
theorem progress_monotone_counterexample :
    ¬ List.Chain' (· ≤ ·)
      ((jobWrites "base" 5 (RunOutcome.transcribeFail "boom")).map
        JobRecord.progress) := by
  simp only [jobWrites, runnerWrites, uploadingRec, loadingRec,
    transcribingRec, errorRec, List.map_cons, List.map_nil]
  norm_num [List.chain'_cons, List.chain'_singleton]

/-- C5 amended: progress writes are non-decreasing through every write
except the terminal one (10 → 20 → 40 → 80), and through the terminal write
as well whenever the job does not fail (successful completion ends at 100);
the transition into the failure state writes progress 0, which regresses. -/
theorem progress_monotone_amended (model_size : String) (wpl : Nat)
    (o : RunOutcome) (segs : List Segment) (lang : Option String) :
    List.Chain' (· ≤ ·)
      (((jobWrites model_size wpl o).map JobRecord.progress).dropLast) ∧
    List.Chain' (· ≤ ·)
      ((jobWrites model_size wpl (RunOutcome.success segs lang)).map
        JobRecord.progress) := by
  constructor
  · cases o with
    | loadFail msg =>
      simp only [jobWrites, runnerWrites, uploadingRec, loadingRec, errorRec,
        List.map_cons, List.map_nil]
      norm_num [List.dropLast, List.chain'_cons, List.chain'_singleton]
    | transcribeFail msg =>
      simp only [jobWrites, runnerWrites, uploadingRec, loadingRec,
        transcribingRec, errorRec, List.map_cons, List.map_nil]
      norm_num [List.dropLast, List.chain'_cons, List.chain'_singleton]
    | success s2 l2 =>
      rw [jobWrites, runnerWrites]
      cases h : create_srt_content s2 wpl with
      | none =>
        simp only [jobWrites, uploadingRec, loadingRec, transcribingRec,
          generatingRec, List.map_cons, List.map_nil]
        norm_num [List.dropLast, List.chain'_cons, List.chain'_singleton]
      | some srt =>
        simp only [jobWrites, uploadingRec, loadingRec, transcribingRec,
          generatingRec, completedRec, List.map_cons, List.map_nil]
        norm_num [List.dropLast, List.chain'_cons, List.chain'_singleton]
  · rw [jobWrites, runnerWrites]
    cases h : create_srt_content segs wpl with
    | none =>
      simp only [uploadingRec, loadingRec, transcribingRec, generatingRec,
        List.map_cons, List.map_nil]
      norm_num [List.chain'_cons, List.chain'_singleton]
    | some srt =>
      simp only [uploadingRec, loadingRec, transcribingRec, generatingRec,
        completedRec, List.map_cons, List.map_nil]
      norm_num [List.chain'_cons, List.chain'_singleton]

/-- C6 counterexample: the claim is false at a concrete input.  On a model
load failure the terminal record's status string is `"error"`, not
`"failed"`: no write in the job's lifetime ever carries status `"failed"`
(the failure description lives in the `message` field of the `"error"`
record). -/
theorem failed_status_counterexample :
    ((jobWrites "base" 5 (RunOutcome.loadFail "disk error")).map
      JobRecord.status) = ["uploading", "loading_model", "error"] ∧
    ∀ r ∈ jobWrites "base" 5 (RunOutcome.loadFail "disk error"),
      r.status ≠ "failed" := by
  constructor
  · decide
  · decide

/-- C6 amended: on any failure inside the runner the final write is the
`error` record (this codebase's name for the spec's `failed`) carrying the
descriptive message `"Error: ..."`, and nothing follows it — no retry, and no
phase is ever written twice (the status sequence has no duplicates); the
`result` key is present in a written record if and only if its status is
`"completed"` (there is no separate `error` field; the description lives in
`message`). -/
theorem failure_terminal_amended (model_size : String) (wpl : Nat)
    (msg : String) (o : RunOutcome) (r : JobRecord)
    (hr : r ∈ jobWrites model_size wpl o) :
    (jobWrites model_size wpl (RunOutcome.loadFail msg)).getLast? =
      some (errorRec msg) ∧
    (jobWrites model_size wpl (RunOutcome.transcribeFail msg)).getLast? =
      some (errorRec msg) ∧
    (r.result.isSome ↔ r.status = "completed") ∧
    ((jobWrites model_size wpl o).map JobRecord.status).Nodup := by
  refine ⟨rfl, rfl, ?_, ?_⟩
  · cases o with
    | loadFail m =>
      simp only [jobWrites, runnerWrites, List.mem_cons, List.not_mem_nil,
        or_false] at hr
      rcases hr with rfl | rfl | rfl <;>
        simp [uploadingRec, loadingRec, errorRec]
    | transcribeFail m =>
      simp only [jobWrites, runnerWrites, List.mem_cons, List.not_mem_nil,
        or_false] at hr
      rcases hr with rfl | rfl | rfl | rfl <;>
        simp [uploadingRec, loadingRec, transcribingRec, errorRec]
    | success segs lang =>
      rw [jobWrites, runnerWrites] at hr
      cases h : create_srt_content segs wpl with
      | none =>
        rw [h] at hr
        simp only [List.mem_cons, List.not_mem_nil, or_false] at hr
        rcases hr with rfl | rfl | rfl | rfl <;>
          simp [uploadingRec, loadingRec, transcribingRec, generatingRec]
      | some srt =>
        rw [h] at hr
        simp only [List.mem_cons, List.not_mem_nil, or_false] at hr
        rcases hr with rfl | rfl | rfl | rfl | rfl <;>
          simp [uploadingRec, loadingRec, transcribingRec, generatingRec,
            completedRec]
  · cases o with
    | loadFail m =>
      simp only [jobWrites, runnerWrites, List.map_cons, List.map_nil,
        uploadingRec, loadingRec, errorRec]
      decide
    | transcribeFail m =>
      simp only [jobWrites, runnerWrites, List.map_cons, List.map_nil,
        uploadingRec, loadingRec, transcribingRec, errorRec]
      decide
    | success segs lang =>
      rw [jobWrites, runnerWrites]
      cases h : create_srt_content segs wpl with
      | none =>
        simp only [List.map_cons, List.map_nil, uploadingRec, loadingRec,
          transcribingRec, generatingRec]
        decide
      | some srt =>
        simp only [List.map_cons, List.map_nil, uploadingRec, loadingRec,
          transcribingRec, generatingRec, completedRec]
        decide

/-- C6 amended witness: the amended claim instantiated at a concrete failed
job with the `uploading` record as the inspected write. -/
theorem failure_terminal_amended_witness :
    uploadingRec ∈ jobWrites "base" 5 (RunOutcome.loadFail "disk error") ∧
    ((jobWrites "base" 5 (RunOutcome.loadFail "disk error")).getLast? =
      some (errorRec "disk error") ∧
    (jobWrites "base" 5 (RunOutcome.transcribeFail "disk error")).getLast? =
      some (errorRec "disk error") ∧
    (uploadingRec.result.isSome ↔ uploadingRec.status = "completed") ∧
    ((jobWrites "base" 5 (RunOutcome.loadFail "disk error")).map
      JobRecord.status).Nodup) :=
  ⟨by decide,
   failure_terminal_amended "base" 5 "disk error"
     (RunOutcome.loadFail "disk error") uploadingRec (by decide)⟩

/-- The request used to exhibit the initial job record: well-formed audio
upload with caller-supplied task id `"t1"`. -/
def sampleRequest : TranscribeRequest :=
  { audio := some [1], words_per_line_field := some "6",
    model_size_field := some "medium", language_field := some "auto",
    task_id_field := some "t1" }

/-- C7 counterexample: the claim is false at a concrete input.  Immediately
after `handle_transcribe` accepts a request, looking the job up returns the
record with status `"uploading"` and progress 10 — not status `"queued"`
with progress 0. -/
theorem initial_record_counterexample :
    (serve_progress (handle_transcribe [] "fresh" sampleRequest).store
      "t1").status = "uploading" ∧
    (serve_progress (handle_transcribe [] "fresh" sampleRequest).store
      "t1").progress = 10 ∧
    ¬ ((serve_progress (handle_transcribe [] "fresh" sampleRequest).store
        "t1").status = "queued" ∧
       (serve_progress (handle_transcribe [] "fresh" sampleRequest).store
        "t1").progress = 0) := by
  refine ⟨by decide, by decide, ?_⟩
  intro hcontra
  have := hcontra.2
  revert this
  decide

/-- C7 amended: immediately after a transcription request with a non-empty
audio part is accepted, looking the job up under the task id the handler
used (the caller-supplied one, or the server-generated fresh id) returns the
initial record with status `"uploading"` and progress 10, before the runner
has made any transition. -/
theorem initial_record_amended (st : JobStore) (freshId : String)
    (req : TranscribeRequest) (bs : List Nat) (haudio : req.audio = some bs)
    (hbs : bs ≠ []) :
    serve_progress (handle_transcribe st freshId req).store
      (req.task_id_field.getD freshId) = uploadingRec := by
  rw [handle_transcribe, haudio]
  dsimp only []
  rw [if_neg (by simp [List.isEmpty_iff, hbs])]
  dsimp only []
  rw [serve_progress, storeGet_storeSet_self]
  rfl

/-- C7 amended witness: the amended claim instantiated at the sample
request. -/
theorem initial_record_amended_witness :
    sampleRequest.audio = some [1] ∧ ([1] : List Nat) ≠ [] ∧
    serve_progress (handle_transcribe [] "fresh" sampleRequest).store
      (sampleRequest.task_id_field.getD "fresh") = uploadingRec :=
  ⟨rfl, by decide,
   initial_record_amended [] "fresh" sampleRequest [1] rfl (by decide)⟩

/-- C8 counterexample: the claim is false at a concrete input.  A job whose
id is not numeric (as server-generated UUID ids are) and that was created at
time 0 is, at current time 3600 (an hour later, exceeding the 30-minute
threshold), required by the claim to be removed (`evictSpec` at this
scenario yields the empty store), yet the sweep leaves it untouched because
`cleanup_old_tasks` derives the age from the id text and `int()` fails on
it. -/
theorem eviction_counterexample :
    evictSpec (fun _ => 0) 3600 [("a1b2c3d4-uuid", uploadingRec)] = [] ∧
    cleanup_pass 3600 [("a1b2c3d4-uuid", uploadingRec)] =
      [("a1b2c3d4-uuid", uploadingRec)] ∧
    parseTaskTime "a1b2c3d4-uuid" = none := by
  refine ⟨?_, ?_, ?_⟩
  · simp only [evictSpec, List.filter]
    rw [show (decide ((3600 : ℚ) - 0 ≤ 1800)) = false from by
      simp only [decide_eq_false_iff_not]
      norm_num]
  · decide
  · decide

/-- C8 amended: one sweep of `cleanup_old_tasks` removes exactly those jobs
whose id text encodes an epoch-millisecond timestamp (the digits before the
first `'_'`, or the whole id) older than 1800 seconds, irrespective of the
job's status or stored record; jobs whose id does not parse as an integer —
including every server-generated UUID id — are never evicted.  The record's
actual creation time is never consulted (it is not even stored). -/
theorem eviction_amended (now : ℚ) (st : JobStore) (id : String)
    (hnd : (st.map Prod.fst).Nodup) (hid : parseTaskTime id = none) :
    cleanup_pass now st = st.filter (fun e => !evictable now e.1) ∧
    evictable now id = false :=
  ⟨cleanup_pass_eq_filter now st hnd, by unfold evictable; rw [hid]⟩

/-- C8 amended witness: a store holding an old timer-derived id and a UUID
id; only the former matches the eviction predicate. -/
theorem eviction_amended_witness :
    (([("1000", uploadingRec), ("a1b2c3d4-uuid", notFoundRec)] : JobStore).map
      Prod.fst).Nodup ∧
    parseTaskTime "a1b2c3d4-uuid" = none ∧
    (cleanup_pass 3600 [("1000", uploadingRec), ("a1b2c3d4-uuid", notFoundRec)] =
      ([("1000", uploadingRec), ("a1b2c3d4-uuid", notFoundRec)] : JobStore).filter
        (fun e => !evictable 3600 e.1) ∧
    evictable 3600 "a1b2c3d4-uuid" = false) :=
  ⟨by decide, by decide,
   eviction_amended 3600 [("1000", uploadingRec), ("a1b2c3d4-uuid", notFoundRec)]
     "a1b2c3d4-uuid" (by decide) (by decide)⟩

/-- C9 counterexample: the claim is false at a concrete input.  An update
for an id absent from the store (here: the empty store) is not a no-op — the
dict assignment creates a brand-new entry, so the store is no longer
unchanged. -/
theorem update_absent_counterexample :
    storeSet [] "t9" (errorRec "boom") = [("t9", errorRec "boom")] ∧
    storeSet [] "t9" (errorRec "boom") ≠ ([] : JobStore) := by
  refine ⟨rfl, ?_⟩
  decide

/-- C9 amended: a job-store update never raises, but for an id absent from
the store it silently creates a new entry holding the written record
(appended at the end, per dict insertion order) rather than leaving the
store unchanged; afterwards the id is retrievable with exactly that
record. -/
theorem update_absent_amended (st : JobStore) (id : String) (r : JobRecord)
    (habs : storeGet st id = none) :
    storeGet (storeSet st id r) id = some r ∧
    storeSet st id r = st ++ [(id, r)] :=
  ⟨storeGet_storeSet_self st id r, storeSet_absent st id r habs⟩

/-- C9 amended witness: updating an id that was never created (empty store)
inserts it. -/
theorem update_absent_amended_witness :
    storeGet [] "t9" = none ∧
    (storeGet (storeSet [] "t9" (errorRec "boom")) "t9" = some (errorRec "boom") ∧
    storeSet [] "t9" (errorRec "boom") = [] ++ [("t9", errorRec "boom")]) :=
  ⟨rfl, update_absent_amended [] "t9" (errorRec "boom") rfl⟩
